import Mathlib

/-!
Verification of the Gaussian-contraction evaluation kernel in
`gbasis/gradient/ad.py` (functions `eval_contractions` and `eval_deriv`).

The kernel is a pure numerical computation over real arrays; we shallow-embed
it over `ℝ`, with arrays as functions out of `Fin`-types and the flattened
output as a `List ℝ`.  Floating-point numbers are modelled by real numbers.
-/

open Real

/-- The `center = np.array([R_x, R_y, R_z])` built inside `eval_contractions`. -/
def centerVec (R_x R_y R_z : ℝ) : Fin 3 → ℝ := ![R_x, R_y, R_z]

/-- The per-primitive, per-dimension Gaussian factor
`gauss = np.exp(-alphas * coords ** 2)` computed on the shifted coordinates:
entry `(k, d)` is `exp (-(α_k) * Δ_d ^ 2)`. -/
noncomputable def gaussFactor {K : ℕ} (alphas : Fin K → ℝ) (delta : Fin 3 → ℝ)
    (k : Fin K) (d : Fin 3) : ℝ :=
  Real.exp (-(alphas k) * delta d ^ 2)

/-- `zeroth_part = np.prod(coords ** angmom_comps * gauss, axis=(0, 2))`:
entry `(k, l)` is the product over the three dimensions `d` of the monomial
factor `Δ_d ^ a_{l,d}` times the Gaussian factor for primitive `k`. -/
noncomputable def zeroth_part {K L : ℕ} (angmom_comps : Fin L → Fin 3 → ℕ)
    (alphas : Fin K → ℝ) (delta : Fin 3 → ℝ) (k : Fin K) (l : Fin L) : ℝ :=
  ∏ d, delta d ^ angmom_comps l d * gaussFactor alphas delta k d

/-- Entry `(m, l)` of `np.tensordot(prim_coeffs, norm * zeroth_part, (0, 0))`:
the primitive axis of `norm.T * zeroth_part` contracted against column `m` of
`prim_coeffs`. -/
noncomputable def contractionValue {K L M : ℕ} (angmom_comps : Fin L → Fin 3 → ℕ)
    (alphas : Fin K → ℝ) (prim_coeffs : Fin K → Fin M → ℝ) (norm : Fin L → Fin K → ℝ)
    (delta : Fin 3 → ℝ) (m : Fin M) (l : Fin L) : ℝ :=
  ∑ k, prim_coeffs k m * (norm l k * zeroth_part angmom_comps alphas delta k l)

/-- The body of `eval_contractions` after the `coords = coords - center` shift:
the `(M, L)` tensordot result flattened row-major (contraction-major). -/
noncomputable def eval_shifted {K L M : ℕ} (angmom_comps : Fin L → Fin 3 → ℕ)
    (alphas : Fin K → ℝ) (prim_coeffs : Fin K → Fin M → ℝ) (norm : Fin L → Fin K → ℝ)
    (delta : Fin 3 → ℝ) : List ℝ :=
  (List.finRange M).flatMap fun m =>
    (List.finRange L).map fun l =>
      contractionValue angmom_comps alphas prim_coeffs norm delta m l

/-- `eval_contractions(coords, R_x, R_y, R_z, angmom_comps, alphas, prim_coeffs, norm)`
for a single point `coords`: shift the point by the center and evaluate the
contracted Gaussians, returning the flattened `M * L` output. -/
noncomputable def eval_contractions {K L M : ℕ} (coords : Fin 3 → ℝ) (R_x R_y R_z : ℝ)
    (angmom_comps : Fin L → Fin 3 → ℕ) (alphas : Fin K → ℝ)
    (prim_coeffs : Fin K → Fin M → ℝ) (norm : Fin L → Fin K → ℝ) : List ℝ :=
  eval_shifted angmom_comps alphas prim_coeffs norm
    (fun d => coords d - centerVec R_x R_y R_z d)

/-- The scalar output path of `eval_contractions` differentiated by
`autograd.grad` in `eval_deriv`: with `M = L = 1` the flattened output has a
single entry (`autograd.grad` accepts exactly size-one outputs), and the
reverse-mode gradient is the exact derivative of that entry.  The head of the
output list is that single entry. -/
noncomputable def contractionScalar {K : ℕ} (coords : Fin 3 → ℝ) (R_x R_y R_z : ℝ)
    (angmom_comps : Fin 1 → Fin 3 → ℕ) (alphas : Fin K → ℝ)
    (prim_coeffs : Fin K → Fin 1 → ℝ) (norm : Fin 1 → Fin K → ℝ) : ℝ :=
  (eval_contractions coords R_x R_y R_z angmom_comps alphas prim_coeffs norm).headI

/-- `eval_deriv(coords, orders, center, angmom_comps, alphas, prim_coeffs, norm)`:
row `i` holds the derivatives of the single-point evaluation at `coords i`
with respect to `R_x`, `R_y`, `R_z` (arguments 1, 2, 3 of `eval_contractions`),
obtained by `grad(eval_contractions, 1..3)` — reverse-mode automatic
differentiation, modelled by the exact mathematical derivative `deriv`.
The `orders` argument is accepted but never read by the body. -/
noncomputable def eval_deriv {K N : ℕ} (coords : Fin N → Fin 3 → ℝ) (orders : ℤ)
    (center : Fin 3 → ℝ) (angmom_comps : Fin 1 → Fin 3 → ℕ) (alphas : Fin K → ℝ)
    (prim_coeffs : Fin K → Fin 1 → ℝ) (norm : Fin 1 → Fin K → ℝ) :
    Fin N → Fin 3 → ℝ :=
  fun i =>
    ![deriv (fun t => contractionScalar (coords i) t (center 1) (center 2)
        angmom_comps alphas prim_coeffs norm) (center 0),
      deriv (fun t => contractionScalar (coords i) (center 0) t (center 2)
        angmom_comps alphas prim_coeffs norm) (center 1),
      deriv (fun t => contractionScalar (coords i) (center 0) (center 1) t
        angmom_comps alphas prim_coeffs norm) (center 2)]

/-- Row-major flattening of an `M × L` array of inner rows of length `L`:
the entry at flat index `m * L + l` is the `(m, l)` entry. -/
lemma flatMap_map_getElem {α : Type} (M L : ℕ) (f : Fin M → Fin L → α) (m : Fin M)
    (l : Fin L) :
    ((List.finRange M).flatMap fun i => (List.finRange L).map (f i))[(m : ℕ) * L + l]? =
      some (f m l) := by
  induction M with
  | zero => exact absurd m.2 (by omega)
  | succ n ih =>
    rw [List.finRange_succ_eq_map, List.flatMap_cons, List.flatMap_map]
    induction m using Fin.cases with
    | zero =>
      rw [List.getElem?_append_left (by simp [l.2])]
      simp
    | succ i =>
      rw [List.getElem?_append_right (by simp [Nat.succ_mul]; omega)]
      have harith : ((i.succ : ℕ) * L + (l : ℕ)) - L = (i : ℕ) * L + (l : ℕ) := by
        simp only [Fin.val_succ, Nat.succ_mul]
        omega
      simp only [List.length_map, List.length_finRange]
      rw [harith]
      exact ih (fun j => f j.succ) i

/-- Row-major flattening of an `M × L` array has length `M * L`. -/
lemma flatMap_map_length {α : Type} (M L : ℕ) (f : Fin M → Fin L → α) :
    ((List.finRange M).flatMap fun i => (List.finRange L).map (f i)).length = M * L := by
  induction M with
  | zero => simp
  | succ n ih =>
    rw [List.finRange_succ_eq_map, List.flatMap_cons, List.flatMap_map]
    simp only [List.length_append, List.length_map, List.length_finRange]
    rw [ih (fun i => f i.succ)]
    ring

/-- Claim C1: for a single point, the flat output of `eval_contractions` has,
at index `m * L + l`, the value
`∑ k, prim_coeffs k m * norm l k * ∏ d, (p d - R d) ^ a l d * exp (-α k * (p d - R d) ^ 2)`. -/
theorem eval_contractions_value {K L M : ℕ} (coords : Fin 3 → ℝ) (R_x R_y R_z : ℝ)
    (angmom_comps : Fin L → Fin 3 → ℕ) (alphas : Fin K → ℝ)
    (prim_coeffs : Fin K → Fin M → ℝ) (norm : Fin L → Fin K → ℝ) (m : Fin M) (l : Fin L) :
    (eval_contractions coords R_x R_y R_z angmom_comps alphas prim_coeffs
        norm)[(m : ℕ) * L + l]? =
      some (∑ k, prim_coeffs k m * norm l k *
        ∏ d, (coords d - ![R_x, R_y, R_z] d) ^ angmom_comps l d *
          Real.exp (-(alphas k) * (coords d - ![R_x, R_y, R_z] d) ^ 2)) := by
  rw [eval_contractions, eval_shifted, flatMap_map_getElem]
  congr 1
  refine Finset.sum_congr rfl fun k _ => ?_
  simp only [contractionValue, zeroth_part, gaussFactor, centerVec]
  ring

/-- Claim C3: the flat output of `eval_contractions` has exactly `M * L`
entries, ordered contraction-major, angular-momentum-minor: the entry at flat
index `m * L + l` is the value of contraction `m` for the `l`-th
angular-momentum vector. -/
theorem eval_contractions_shape {K L M : ℕ} (coords : Fin 3 → ℝ) (R_x R_y R_z : ℝ)
    (angmom_comps : Fin L → Fin 3 → ℕ) (alphas : Fin K → ℝ)
    (prim_coeffs : Fin K → Fin M → ℝ) (norm : Fin L → Fin K → ℝ) :
    (eval_contractions coords R_x R_y R_z angmom_comps alphas prim_coeffs norm).length =
        M * L ∧
      ∀ (m : Fin M) (l : Fin L),
        (eval_contractions coords R_x R_y R_z angmom_comps alphas prim_coeffs
            norm)[(m : ℕ) * L + l]? =
          some (contractionValue angmom_comps alphas prim_coeffs norm
            (fun d => coords d - centerVec R_x R_y R_z d) m l) := by
  constructor
  · rw [eval_contractions, eval_shifted, flatMap_map_length]
  · intro m l
    rw [eval_contractions, eval_shifted, flatMap_map_getElem]

/-- Claim C4: applying a permutation of the primitive index simultaneously to
`alphas`, the rows of `prim_coeffs` and the columns of `norm` leaves the
output of `eval_contractions` unchanged. -/
theorem eval_contractions_perm_invariant {K L M : ℕ} (coords : Fin 3 → ℝ)
    (R_x R_y R_z : ℝ) (angmom_comps : Fin L → Fin 3 → ℕ) (alphas : Fin K → ℝ)
    (prim_coeffs : Fin K → Fin M → ℝ) (norm : Fin L → Fin K → ℝ)
    (σ : Equiv.Perm (Fin K)) :
    eval_contractions coords R_x R_y R_z angmom_comps (fun k => alphas (σ k))
        (fun k m => prim_coeffs (σ k) m) (fun l k => norm l (σ k)) =
      eval_contractions coords R_x R_y R_z angmom_comps alphas prim_coeffs norm := by
  simp only [eval_contractions, eval_shifted]
  congr 1
  funext m
  congr 1
  funext l
  simp only [contractionValue, zeroth_part, gaussFactor]
  exact Fintype.sum_equiv σ _ _ fun k => rfl

/-- Claim C10: `eval_contractions` is translation invariant — shifting the
point and the three center scalars by the same vector `t` does not change the
output, because the computation depends on them only via `coords - center`. -/
theorem eval_contractions_translation_invariant {K L M : ℕ} (coords : Fin 3 → ℝ)
    (R_x R_y R_z : ℝ) (t : Fin 3 → ℝ) (angmom_comps : Fin L → Fin 3 → ℕ)
    (alphas : Fin K → ℝ) (prim_coeffs : Fin K → Fin M → ℝ) (norm : Fin L → Fin K → ℝ) :
    eval_contractions (fun d => coords d + t d) (R_x + t 0) (R_y + t 1) (R_z + t 2)
        angmom_comps alphas prim_coeffs norm =
      eval_contractions coords R_x R_y R_z angmom_comps alphas prim_coeffs norm := by
  simp only [eval_contractions]
  congr 1
  funext d
  fin_cases d <;> simp [centerVec]

/-- Claim C5: a zero angular-momentum vector makes every monomial factor `1`
(the `0 ^ 0 = 1` convention, holding for every shifted coordinate, zero
included), so `zeroth_part` reduces to the bare Gaussian factors; and in the
concrete scenario `K = L = M = 1`, `α = 1`, coefficient `1`, `norm = 1`,
point and center both the origin, `eval_contractions` returns `[1]`. -/
theorem eval_contractions_zero_angmom :
    (∀ (K L : ℕ) (alphas : Fin K → ℝ) (delta : Fin 3 → ℝ) (k : Fin K) (l : Fin L),
        zeroth_part (fun _ _ => 0) alphas delta k l =
          ∏ d, gaussFactor alphas delta k d) ∧
      @eval_contractions 1 1 1 ![0, 0, 0] 0 0 0 (fun _ _ => 0)
        (fun _ => 1) (fun _ _ => 1) (fun _ _ => 1) = [1] := by
  constructor
  · intro K L alphas delta k l
    simp [zeroth_part]
  · simp [eval_contractions, eval_shifted, contractionValue, zeroth_part, gaussFactor,
      centerVec, List.finRange_succ_eq_map, List.finRange_zero]

/-- Claim C9: the `orders` parameter of `eval_deriv` is accepted but never
used — any two values of it give identical outputs. -/
theorem eval_deriv_orders_unused {K N : ℕ} (coords : Fin N → Fin 3 → ℝ)
    (o₁ o₂ : ℤ) (center : Fin 3 → ℝ) (angmom_comps : Fin 1 → Fin 3 → ℕ)
    (alphas : Fin K → ℝ) (prim_coeffs : Fin K → Fin 1 → ℝ)
    (norm : Fin 1 → Fin K → ℝ) :
    eval_deriv coords o₁ center angmom_comps alphas prim_coeffs norm =
      eval_deriv coords o₂ center angmom_comps alphas prim_coeffs norm := rfl

/-- The scalar path (`M = L = 1`) of `eval_contractions` is the single
`(0, 0)` contraction value at the shifted coordinates. -/
lemma contractionScalar_eq {K : ℕ} (coords : Fin 3 → ℝ) (R_x R_y R_z : ℝ)
    (angmom_comps : Fin 1 → Fin 3 → ℕ) (alphas : Fin K → ℝ)
    (prim_coeffs : Fin K → Fin 1 → ℝ) (norm : Fin 1 → Fin K → ℝ) :
    contractionScalar coords R_x R_y R_z angmom_comps alphas prim_coeffs norm =
      contractionValue angmom_comps alphas prim_coeffs norm
        (fun d => coords d - centerVec R_x R_y R_z d) 0 0 := by
  simp [contractionScalar, eval_contractions, eval_shifted, List.finRange_succ_eq_map,
    List.finRange_zero]

/-- Claim C2: with a single output component (`M = L = 1`), each row of
`eval_deriv` is the exact derivative — not a finite-difference quotient — of
the closed-form `eval_contractions` value
`∑ k, prim_coeffs k 0 * norm 0 k * ∏ d, Δ d ^ a d * exp (-α k * Δ d ^ 2)`
with respect to each center scalar in turn, at the point `coords i`. -/
theorem eval_deriv_exact_closed_form {K N : ℕ} (coords : Fin N → Fin 3 → ℝ)
    (orders : ℤ) (center : Fin 3 → ℝ) (angmom_comps : Fin 1 → Fin 3 → ℕ)
    (alphas : Fin K → ℝ) (prim_coeffs : Fin K → Fin 1 → ℝ)
    (norm : Fin 1 → Fin K → ℝ) (i : Fin N) :
    eval_deriv coords orders center angmom_comps alphas prim_coeffs norm i =
      ![deriv (fun s => ∑ k, prim_coeffs k 0 * norm 0 k *
            ∏ d, (coords i d - ![s, center 1, center 2] d) ^ angmom_comps 0 d *
              Real.exp (-(alphas k) * (coords i d - ![s, center 1, center 2] d) ^ 2))
          (center 0),
        deriv (fun s => ∑ k, prim_coeffs k 0 * norm 0 k *
            ∏ d, (coords i d - ![center 0, s, center 2] d) ^ angmom_comps 0 d *
              Real.exp (-(alphas k) * (coords i d - ![center 0, s, center 2] d) ^ 2))
          (center 1),
        deriv (fun s => ∑ k, prim_coeffs k 0 * norm 0 k *
            ∏ d, (coords i d - ![center 0, center 1, s] d) ^ angmom_comps 0 d *
              Real.exp (-(alphas k) * (coords i d - ![center 0, center 1, s] d) ^ 2))
          (center 2)] := by
  have key : ∀ R_x R_y R_z : ℝ,
      contractionScalar (coords i) R_x R_y R_z angmom_comps alphas prim_coeffs norm =
        ∑ k, prim_coeffs k 0 * norm 0 k *
          ∏ d, (coords i d - ![R_x, R_y, R_z] d) ^ angmom_comps 0 d *
            Real.exp (-(alphas k) * (coords i d - ![R_x, R_y, R_z] d) ^ 2) := by
    intro R_x R_y R_z
    rw [contractionScalar_eq]
    simp only [contractionValue, zeroth_part, gaussFactor, centerVec]
    exact Finset.sum_congr rfl fun k _ => by ring
  have h0 : (fun s => contractionScalar (coords i) s (center 1) (center 2)
      angmom_comps alphas prim_coeffs norm) =
      fun s => ∑ k, prim_coeffs k 0 * norm 0 k *
        ∏ d, (coords i d - ![s, center 1, center 2] d) ^ angmom_comps 0 d *
          Real.exp (-(alphas k) * (coords i d - ![s, center 1, center 2] d) ^ 2) :=
    funext fun s => key s (center 1) (center 2)
  have h1 : (fun s => contractionScalar (coords i) (center 0) s (center 2)
      angmom_comps alphas prim_coeffs norm) =
      fun s => ∑ k, prim_coeffs k 0 * norm 0 k *
        ∏ d, (coords i d - ![center 0, s, center 2] d) ^ angmom_comps 0 d *
          Real.exp (-(alphas k) * (coords i d - ![center 0, s, center 2] d) ^ 2) :=
    funext fun s => key (center 0) s (center 2)
  have h2 : (fun s => contractionScalar (coords i) (center 0) (center 1) s
      angmom_comps alphas prim_coeffs norm) =
      fun s => ∑ k, prim_coeffs k 0 * norm 0 k *
        ∏ d, (coords i d - ![center 0, center 1, s] d) ^ angmom_comps 0 d *
          Real.exp (-(alphas k) * (coords i d - ![center 0, center 1, s] d) ^ 2) :=
    funext fun s => key (center 0) (center 1) s
  simp only [eval_deriv, h0, h1, h2]

/-- Claim C7: for a batch of `N` points (scalar output path `M = L = 1`),
entry `(i, d)` of the `N × 3` output of `eval_deriv` is the partial derivative
of the evaluation at point `coords i` with respect to the `d`-th center
scalar alone (the other two center scalars held fixed). -/
theorem eval_deriv_rows {K N : ℕ} (coords : Fin N → Fin 3 → ℝ) (orders : ℤ)
    (center : Fin 3 → ℝ) (angmom_comps : Fin 1 → Fin 3 → ℕ) (alphas : Fin K → ℝ)
    (prim_coeffs : Fin K → Fin 1 → ℝ) (norm : Fin 1 → Fin K → ℝ)
    (i : Fin N) (d : Fin 3) :
    eval_deriv coords orders center angmom_comps alphas prim_coeffs norm i d =
      deriv (fun s => contractionScalar (coords i) (Function.update center d s 0)
        (Function.update center d s 1) (Function.update center d s 2)
        angmom_comps alphas prim_coeffs norm) (center d) := by
  fin_cases d <;> simp [eval_deriv, Function.update_apply]

/-- Claim C6: in the scenario `K = L = M = 1`, `α = 1`, coefficient `1`,
`norm = 1`, angular-momentum vector `(1, 0, 0)`, center at the origin and
point `(1, 0, 0)`, `eval_contractions` returns `[exp (-1)]`, and the
`x`-component of `eval_deriv` — the derivative with respect to the center
`x`-scalar — equals `exp (-1)` (the value of `(2 (x - c)^2 - 1) * exp (-(x - c)^2)`
at `x - c = 1`). -/
theorem eval_scenario_px :
    @eval_contractions 1 1 1 ![1, 0, 0] 0 0 0 (fun _ => ![1, 0, 0])
        (fun _ => 1) (fun _ _ => 1) (fun _ _ => 1) = [Real.exp (-1)] ∧
      @eval_deriv 1 1 (fun _ => ![1, 0, 0]) 1 ![0, 0, 0] (fun _ => ![1, 0, 0])
        (fun _ => 1) (fun _ _ => 1) (fun _ _ => 1) 0 0 = Real.exp (-1) := by
  constructor
  · simp [eval_contractions, eval_shifted, contractionValue, zeroth_part, gaussFactor,
      centerVec, Fin.prod_univ_three, Fin.sum_univ_one, List.finRange_succ_eq_map,
      List.finRange_zero]
  · have hED : @eval_deriv 1 1 (fun _ => ![1, 0, 0]) 1 ![0, 0, 0] (fun _ => ![1, 0, 0])
        (fun _ => 1) (fun _ _ => 1) (fun _ _ => 1) 0 0 =
        deriv (fun t => @contractionScalar 1 ![1, 0, 0] t 0 0 (fun _ => ![1, 0, 0])
          (fun _ => (1 : ℝ)) (fun _ _ => 1) (fun _ _ => 1)) 0 := by
      simp [eval_deriv]
    have hfun : (fun t => @contractionScalar 1 ![1, 0, 0] t 0 0 (fun _ => ![1, 0, 0])
        (fun _ => (1 : ℝ)) (fun _ _ => 1) (fun _ _ => 1)) =
        fun t => (1 - t) * Real.exp (-(1 - t) ^ 2) := by
      funext t
      rw [contractionScalar_eq]
      simp [contractionValue, zeroth_part, gaussFactor, centerVec, Fin.prod_univ_three,
        Fin.sum_univ_one]
    have hD : HasDerivAt (fun t : ℝ => (1 - t) * Real.exp (-(1 - t) ^ 2))
        (Real.exp (-1)) 0 := by
      have h1 : HasDerivAt (fun t : ℝ => 1 - t) (-1) 0 := by
        simpa using (hasDerivAt_id (0 : ℝ)).const_sub 1
      have hq : HasDerivAt (fun t : ℝ => -(1 - t) ^ 2) 2 0 := by
        have h := (h1.pow 2).neg
        norm_num at h
        exact h
      have hexp : HasDerivAt (fun t : ℝ => Real.exp (-(1 - t) ^ 2))
          (Real.exp (-1) * 2) 0 := by
        have h := hq.exp
        norm_num at h
        exact h
      have hmul := h1.mul hexp
      norm_num at hmul
      convert hmul using 1
      ring
    rw [hED, hfun, hD.deriv]
